import Mathlib

/-!
Verification development for the options volatility trading bot
(`src/volatility.py`).

The Python source is shallowly embedded: Python floats are modelled by
exact rationals (`ℚ`), the external numeric library routines
(`np.log`, `np.sqrt`, `np.exp`, `scipy.stats.norm.cdf`) are abstracted
as a bundle of function parameters (`MathPrims`) since their code is
not part of the repository, and the mutable per-ticker `stats`
dictionary becomes an explicit `Stats` record (the `"RTM"` entry,
which the option loops skip via `continue`, is the separate `rtm`
field; the ten option entries form the `options` list).  Order
submission (`buy`/`sell`) is modelled by returning the list of orders
a call produces, in submission sequence.
-/

set_option autoImplicit false

/-- Order side, corresponding to the `buy` and `sell` helpers of the source. -/
inductive Side
  | buy
  | sell
deriving DecidableEq, Repr

/-- A market order as submitted by `buy`/`sell` (quantity is rational because
the source can pass a non-integral float, e.g. in `manage_risk`). -/
structure Order where
  ticker : String
  side : Side
  quantity : ℚ
deriving DecidableEq, Repr

/-- The underlying's ticker string. -/
def RTM : String := "RTM"

/-- Strategy constant `MKT_FEE = 0.02`. -/
def MKT_FEE : ℚ := 0.02

/-- Strategy constant `SHARES_PER_CONTRACT = 100`. -/
def SHARES_PER_CONTRACT : ℚ := 100

/-- Strategy constant `OPTIONS_QTY_PER_TRADE = 90`. -/
def OPTIONS_QTY_PER_TRADE : ℚ := 90

/-- Strategy constant `NET_DELTA_RISK_LIMIT = 5000`. -/
def NET_DELTA_RISK_LIMIT : ℚ := 5000

/-- Strategy constant `SHARES_ORDER_LIMIT = 10000`. -/
def SHARES_ORDER_LIMIT : ℚ := 10000

/-- External transcendental primitives used by `black_scholes_price`
(numpy's `log`/`sqrt`/`exp` and scipy's `norm.cdf`); they are library
code outside this repository, so they are parameters of the embedding.
The degenerate branch of the pricing function never calls them. -/
structure MathPrims where
  log : ℚ → ℚ
  sqrt : ℚ → ℚ
  exp : ℚ → ℚ
  cdf : ℚ → ℚ

/-- `black_scholes_price(S, K, r, sigma, T, is_call)` from the source:
if `T <= 0 or sigma <= 0` it returns `max(S - K, 0.0)` (regardless of
`is_call`), otherwise the two-term closed form with `norm.cdf`. -/
def black_scholes_price (P : MathPrims) (S K r sigma T : ℚ) (is_call : Bool) : ℚ :=
  if T ≤ 0 ∨ sigma ≤ 0 then max (S - K) 0
  else
    let d1 := (P.log (S / K) + (r + 0.5 * sigma ^ 2) * T) / (sigma * P.sqrt T)
    let d2 := d1 - sigma * P.sqrt T
    if is_call then S * P.cdf d1 - K * P.exp (-(r * T)) * P.cdf d2
    else K * P.exp (-(r * T)) * P.cdf (-d2) - S * P.cdf (-d1)

/-- `calculate_delta` from the source: a central finite difference of
`black_scholes_price` with bump `h` (the source's default is `h = 0.01`,
which every call site uses). -/
def calculate_delta (P : MathPrims) (S K r sigma T : ℚ) (is_call : Bool) (h : ℚ) : ℚ :=
  (black_scholes_price P (S + h) K r sigma T is_call
    - black_scholes_price P (S - h) K r sigma T is_call) / (2 * h)

/-- Mutable fields of an option entry of the `stats` dictionary:
`position` (0 = flat, 1 = long, 2 = short), `target`, `market`, `delta`. -/
structure OptData where
  position : ℕ
  target : ℚ
  market : ℚ
  delta : ℚ
deriving DecidableEq, Repr

/-- Mutable fields of the `stats["RTM"]` entry: `position`, `target`,
`market`, `vwap`. -/
structure RtmData where
  position : ℚ
  target : ℚ
  market : ℚ
  vwap : ℚ
deriving DecidableEq, Repr

/-- One option entry of `stats`: its dictionary key (`ticker`), the strike
and call/put flag encoded in that key, and the mutable data. -/
structure OptEntry where
  ticker : String
  strike : ℚ
  is_call : Bool
  data : OptData
deriving DecidableEq, Repr

/-- The `stats` dictionary: the `"RTM"` entry plus the option entries. -/
structure Stats where
  rtm : RtmData
  options : List OptEntry
deriving DecidableEq, Repr

/-- The per-instrument body of the loop in `perform_options_trades`:
given an option's data, the updated data and the order (if any) the
iteration submits.  Mirrors lines 103-126 of the source. -/
def step_option (d : OptData) : OptData × Option (Side × ℚ) :=
  let m := d.market
  let t := d.target
  if d.position = 0 then
    if 0.04 ≤ |m - t| then
      if m < t then (⟨1, d.target, d.market, d.delta⟩, some (Side.buy, OPTIONS_QTY_PER_TRADE))
      else (⟨2, d.target, d.market, d.delta⟩, some (Side.sell, OPTIONS_QTY_PER_TRADE))
    else (d, none)
  else if d.position = 1 then
    if t ≤ m ∨ |m - t| ≤ 0.01 then
      (⟨0, d.target, d.market, d.delta⟩, some (Side.sell, OPTIONS_QTY_PER_TRADE))
    else (d, none)
  else if d.position = 2 then
    if m ≤ t ∨ |m - t| ≤ 0.01 then
      (⟨0, d.target, d.market, d.delta⟩, some (Side.buy, OPTIONS_QTY_PER_TRADE))
    else (d, none)
  else (d, none)

/-- The `for ticker, data in stats.items()` loop of
`perform_options_trades`, restricted to the option entries (the source
skips `"RTM"` with `continue`; here the underlying lives outside the
list).  Returns the updated entries and the submitted orders in
submission sequence. -/
def options_loop : List OptEntry → List OptEntry × List Order
  | [] => ([], [])
  | e :: rest =>
    let r := step_option e.data
    let tail := options_loop rest
    (⟨e.ticker, e.strike, e.is_call, r.1⟩ :: tail.1,
      (match r.2 with
        | some sq => [⟨e.ticker, sq.1, sq.2⟩]
        | none => []) ++ tail.2)

/-- `perform_options_trades` from the source: run the trading state
machine on every option entry, returning the mutated `stats` and the
submitted orders. -/
def perform_options_trades (stats : Stats) : Stats × List Order :=
  (⟨stats.rtm, (options_loop stats.options).1⟩, (options_loop stats.options).2)

/-- The `net_delta` accumulation of `manage_risk` (lines 130-145):
sum the delta-scaled exposure of the option entries (skipping `"RTM"`),
then add the underlying's own position. -/
def netDelta (stats : Stats) : ℚ :=
  stats.options.foldl
    (fun nd e =>
      if e.data.position = 1 then
        nd + e.data.delta * OPTIONS_QTY_PER_TRADE * SHARES_PER_CONTRACT
      else if e.data.position = 2 then
        nd - e.data.delta * OPTIONS_QTY_PER_TRADE * SHARES_PER_CONTRACT
      else nd)
    0 + stats.rtm.position

/-- Python's `int()` on a real number: truncation toward zero. -/
def pytrunc (x : ℚ) : ℤ :=
  if 0 ≤ x then ⌊x⌋ else ⌈x⌉

/-- The order-splitting loop of `manage_risk` (lines 153-157 / 160-164):
`while shares > SHARES_ORDER_LIMIT` submit `SHARES_ORDER_LIMIT` and
subtract it; at the end, if a positive remainder is left, submit it.
Returns the sequence of submitted quantities. -/
def chunk_orders (shares : ℚ) : List ℚ :=
  if h : SHARES_ORDER_LIMIT < shares then
    SHARES_ORDER_LIMIT :: chunk_orders (shares - SHARES_ORDER_LIMIT)
  else if 0 < shares then [shares] else []
termination_by (⌈shares⌉).toNat
decreasing_by
  have hlim : (SHARES_ORDER_LIMIT : ℚ) = ((10000 : ℤ) : ℚ) := by
    norm_num [SHARES_ORDER_LIMIT]
  have h1 : ⌈shares - SHARES_ORDER_LIMIT⌉ = ⌈shares⌉ - 10000 := by
    rw [hlim, Int.ceil_sub_int]
  have h2 : 0 < ⌈shares - SHARES_ORDER_LIMIT⌉ := by
    apply Int.ceil_pos.mpr
    have : (SHARES_ORDER_LIMIT : ℚ) = 10000 := by norm_num [SHARES_ORDER_LIMIT]
    linarith [h, this]
  omega

/-- `manage_risk` from the source (lines 129-175), as the list of orders
it submits.  Over the risk limit it sells (resp. buys) the hedge
quantity `abs(int(net_delta)) * 0.7` split by `chunk_orders`; otherwise
the two profit-taking unwind branches may flatten the underlying. -/
def manage_risk (stats : Stats) : List Order :=
  let nd := netDelta stats
  let p := stats.rtm.position
  if NET_DELTA_RISK_LIMIT < |nd| then
    (chunk_orders ((|pytrunc nd| : ℤ) * (0.7 : ℚ))).map
      (fun q => ⟨RTM, if 0 < nd then Side.sell else Side.buy, q⟩)
  else if 0 < p ∧ stats.rtm.vwap < stats.rtm.market - MKT_FEE * p then
    if |nd - p| < NET_DELTA_RISK_LIMIT then [⟨RTM, Side.sell, p⟩] else []
  else if p < 0 ∧ stats.rtm.market + MKT_FEE * |p| < stats.rtm.vwap then
    if |nd - p| < NET_DELTA_RISK_LIMIT then [⟨RTM, Side.buy, |p|⟩] else []
  else []

/-- `get_realized_volatility` (lines 53-66), as a function of the
whitespace-tokenized body of the latest announcement.  Python's
`float(...)` string conversion is library code outside the repository
and is abstracted as the parameter `f` (`none` models its raising
`ValueError`); a `none` from indexing models the `IndexError` of
`news_body[29]` on a short list.  Every failure path is caught by the
source's bare `except` and yields the sentinel `-1`. -/
def get_realized_volatility (f : String → Option ℚ) (news_body : List String) : ℚ :=
  if news_body.length = 16 then
    match news_body.getLast? with
    | some tok =>
      match f (tok.dropRight 1) with
      | some x => x / 100
      | none => -1
    | none => -1
  else
    match news_body.get? 29 with
    | some tok =>
      match f (tok.dropRight 2) with
      | some x => x / 100
      | none => -1
    | none => -1

/-- The checkpoint update of the driver loop (lines 228-230):
`sigma` is overwritten by `temp` only when `temp > 0`. -/
def update_sigma (sigma temp : ℚ) : ℚ :=
  if 0 < temp then temp else sigma

/-- The target refresh of the driver loop (lines 253-258): replace the
target when flat, ratchet it up with `max` when long, down with `min`
when short. -/
def refresh_target (position : ℕ) (black_scholes target : ℚ) : ℚ :=
  if position = 0 then black_scholes
  else if position = 1 then max black_scholes target
  else if position = 2 then min black_scholes target
  else target

/-- The per-option body of the pricing refresh loop (lines 245-258):
update the market price from the securities snapshot, recompute delta,
and refresh the target. -/
def refresh_entry (P : MathPrims) (sigma S T price : ℚ) (e : OptEntry) : OptEntry :=
  ⟨e.ticker, e.strike, e.is_call,
    ⟨e.data.position,
      refresh_target e.data.position
        (black_scholes_price P S e.strike 0 sigma T e.is_call) e.data.target,
      price,
      calculate_delta P S e.strike 0 sigma T e.is_call 0.01⟩⟩

/-- The whole mutable state of the main program: the volatility scalar
`sigma` (initialized to the sentinel `-1`) and the `stats` dictionary. -/
structure BotState where
  sigma : ℚ
  stats : Stats
deriving DecidableEq, Repr

/-- The external data one loop iteration consumes: the realized-
volatility parse result when the tick is a checkpoint (`none`
otherwise), the underlying's last price / position / vwap from the
securities snapshot, the option last prices, and the time to expiry. -/
structure TickInput where
  vol : Option ℚ
  S : ℚ
  rtm_position : ℚ
  rtm_vwap : ℚ
  prices : String → ℚ
  T : ℚ

/-- One iteration of the driver loop for a fresh tick (lines 219-262):
checkpoint sigma update, `stats["RTM"]` refresh, the pricing loop
(skipped entirely when `sigma < 0`, mirroring the `break`), then
`perform_options_trades` followed by `manage_risk` on the mutated
stats.  Returns the new state and all submitted orders in sequence. -/
def tickStep (P : MathPrims) (st : BotState) (inp : TickInput) : BotState × List Order :=
  let sigma :=
    match inp.vol with
    | some temp => update_sigma st.sigma temp
    | none => st.sigma
  let rtm : RtmData := ⟨inp.rtm_position, st.stats.rtm.target, inp.S, inp.rtm_vwap⟩
  let options :=
    if sigma < 0 then st.stats.options
    else st.stats.options.map (fun e => refresh_entry P sigma inp.S inp.T (inp.prices e.ticker) e)
  let traded := perform_options_trades ⟨rtm, options⟩
  (⟨sigma, traded.1⟩, traded.2 ++ manage_risk traded.1)

/-- Iterating `tickStep` over a sequence of tick inputs, collecting all
submitted orders. -/
def runTicks (P : MathPrims) (st : BotState) : List TickInput → BotState × List Order
  | [] => (st, [])
  | inp :: rest =>
    let r := tickStep P st inp
    let r2 := runTicks P r.1 rest
    (r2.1, r.2 ++ r2.2)

/-- The initial data of every option entry of `stats` (lines 195-209):
flat position, zero target, market and delta. -/
def initOptData : OptData := ⟨0, 0, 0, 0⟩

/-- The parse of the designated token of an announcement body, before the
division by 100: `none` exactly when the source's `try` block raises
(bad index or failed `float(...)` conversion). -/
def parse_vol_token (f : String → Option ℚ) (news_body : List String) : Option ℚ :=
  if news_body.length = 16 then
    news_body.getLast?.bind (fun tok => f (tok.dropRight 1))
  else
    (news_body.get? 29).bind (fun tok => f (tok.dropRight 2))

/-- The fixed option universe of `stats` (lines 195-209), in insertion
order, with every entry at its initial data. -/
def optUniverse : List OptEntry :=
  [⟨"RTM48C", 48, true, initOptData⟩, ⟨"RTM49C", 49, true, initOptData⟩,
   ⟨"RTM50C", 50, true, initOptData⟩, ⟨"RTM51C", 51, true, initOptData⟩,
   ⟨"RTM52C", 52, true, initOptData⟩, ⟨"RTM48P", 48, false, initOptData⟩,
   ⟨"RTM49P", 49, false, initOptData⟩, ⟨"RTM50P", 50, false, initOptData⟩,
   ⟨"RTM51P", 51, false, initOptData⟩, ⟨"RTM52P", 52, false, initOptData⟩]

/-- Concrete stats with net delta `5001`: all options flat, underlying
position `5001`. -/
def stats_c1 : Stats := ⟨⟨5001, 0, 0, 0⟩, optUniverse⟩

/-- Concrete stats for the unwind branch: underlying position `2`,
market `10.03`, vwap `10`, all options flat (net delta `2`). -/
def stats_c3 : Stats := ⟨⟨2, 0, 10.03, 10⟩, optUniverse⟩

/-- Concrete stats with two long calls of delta `0.5` (net delta `9000`). -/
def stats_w1 : Stats :=
  ⟨⟨0, 0, 0, 0⟩,
   [⟨"RTM48C", 48, true, ⟨1, 0, 0, 0.5⟩⟩, ⟨"RTM49C", 49, true, ⟨1, 0, 0, 0.5⟩⟩]⟩

/-- Concrete stats with everything flat and zero (net delta `0`). -/
def stats_w0 : Stats := ⟨⟨0, 0, 0, 0⟩, optUniverse⟩

/-- Concrete stats for a profitable long-hedge unwind: underlying position
`1`, market `10.05`, vwap `10`, all options flat (net delta `1`). -/
def stats_w3 : Stats := ⟨⟨1, 0, 10.05, 10⟩, optUniverse⟩

/-- Trivial transcendental primitives for concrete evaluations. -/
def P0 : MathPrims := ⟨fun _ => 0, fun _ => 0, fun _ => 0, fun _ => 0⟩

/-- The initial program state: `sigma = -1` and the fresh `stats`. -/
def st0 : BotState := ⟨-1, ⟨⟨0, 0, 0, 0⟩, optUniverse⟩⟩

/-- A concrete checkpoint tick input whose volatility parse failed
(sentinel `-1`). -/
def inp0 : TickInput := ⟨some (-1), 50, 0, 0, fun _ => 1, 1 / 24⟩

lemma chunk_orders_of_gt (s : ℚ) (h1 : SHARES_ORDER_LIMIT < s) :
    chunk_orders s = SHARES_ORDER_LIMIT :: chunk_orders (s - SHARES_ORDER_LIMIT) := by
  rw [chunk_orders]
  rw [dif_pos h1]

lemma chunk_orders_of_le (s : ℚ) (h1 : ¬ SHARES_ORDER_LIMIT < s) :
    chunk_orders s = if 0 < s then [s] else [] := by
  rw [chunk_orders]
  rw [dif_neg h1]

lemma chunk_orders_split (s : ℚ) (hs : 0 < s) :
    ∃ l q, chunk_orders s = l ++ [q] ∧ (∀ x ∈ l, x = SHARES_ORDER_LIMIT) ∧
      0 < q ∧ q ≤ SHARES_ORDER_LIMIT ∧ (l ++ [q]).sum = s := by
  by_cases h : SHARES_ORDER_LIMIT < s
  · have hlim : SHARES_ORDER_LIMIT = (10000 : ℚ) := by norm_num [SHARES_ORDER_LIMIT]
    have hpos : 0 < s - SHARES_ORDER_LIMIT := by rw [hlim] at h ⊢; linarith
    obtain ⟨l, q, heq, hl, hq0, hqle, hsum⟩ := chunk_orders_split (s - SHARES_ORDER_LIMIT) hpos
    refine ⟨SHARES_ORDER_LIMIT :: l, q, ?_, ?_, hq0, hqle, ?_⟩
    · rw [chunk_orders_of_gt s h, heq, List.cons_append]
    · intro x hx
      rcases List.mem_cons.mp hx with h' | h'
      · exact h'
      · exact hl x h'
    · rw [List.cons_append, List.sum_cons, hsum]
      ring
  · refine ⟨[], s, ?_, by simp, hs, le_of_not_lt h, by simp⟩
    rw [chunk_orders_of_le s h, if_pos hs, List.nil_append]
termination_by (⌈s⌉).toNat
decreasing_by
  have hlim : (SHARES_ORDER_LIMIT : ℚ) = ((10000 : ℤ) : ℚ) := by
    norm_num [SHARES_ORDER_LIMIT]
  have h1 : ⌈s - SHARES_ORDER_LIMIT⌉ = ⌈s⌉ - 10000 := by
    rw [hlim, Int.ceil_sub_int]
  have h2 : 0 < ⌈s - SHARES_ORDER_LIMIT⌉ := by
    apply Int.ceil_pos.mpr
    have hl2 : (SHARES_ORDER_LIMIT : ℚ) = 10000 := by norm_num [SHARES_ORDER_LIMIT]
    linarith [h, hl2]
  omega

lemma pytrunc_abs_ge (nd : ℚ) (h : NET_DELTA_RISK_LIMIT < |nd|) :
    (5000 : ℤ) ≤ |pytrunc nd| := by
  have h5 : NET_DELTA_RISK_LIMIT = (5000 : ℚ) := by norm_num [NET_DELTA_RISK_LIMIT]
  rw [h5] at h
  rcases le_or_lt 0 nd with hpos | hneg
  · rw [abs_of_nonneg hpos] at h
    have hfl : (5000 : ℤ) ≤ ⌊nd⌋ := Int.le_floor.mpr (by exact_mod_cast h.le)
    rw [pytrunc, if_pos hpos, abs_of_nonneg (by omega)]
    exact hfl
  · rw [abs_of_neg hneg] at h
    have hle : ⌈nd⌉ ≤ -5000 := Int.ceil_le.mpr (by push_cast; linarith)
    rw [pytrunc, if_neg (not_le.mpr hneg), abs_of_nonpos (by omega)]
    omega

lemma hedge_shares_pos (nd : ℚ) (h : NET_DELTA_RISK_LIMIT < |nd|) :
    0 < ((|pytrunc nd| : ℤ) : ℚ) * (0.7 : ℚ) := by
  have hge := pytrunc_abs_ge nd h
  have h0 : (0 : ℚ) < ((|pytrunc nd| : ℤ) : ℚ) := by
    exact_mod_cast lt_of_lt_of_le (by norm_num) hge
  have : (0 : ℚ) < (0.7 : ℚ) := by norm_num
  exact mul_pos h0 this

lemma manage_risk_ticker (stats : Stats) : ∀ o ∈ manage_risk stats, o.ticker = RTM := by
  intro o ho
  simp only [manage_risk] at ho
  split_ifs at ho <;>
    first
      | (simp only [List.mem_map] at ho
         obtain ⟨q, hq, rfl⟩ := ho
         rfl)
      | (simp only [List.mem_singleton] at ho
         subst ho
         rfl)
      | (subst ho
         rfl)
      | simp at ho

lemma step_option_init : step_option initOptData = (initOptData, none) := by
  norm_num [step_option, initOptData]

lemma options_loop_init (l : List OptEntry) (h : ∀ e ∈ l, e.data = initOptData) :
    options_loop l = (l, []) := by
  induction l with
  | nil => rfl
  | cons e rest IH =>
    have he : e.data = initOptData := h e (List.mem_cons_self e rest)
    have hr := IH (fun x hx => h x (List.mem_cons_of_mem e hx))
    simp only [options_loop, he, step_option_init, hr]
    cases e with
    | mk tk k c d =>
      simp only [OptEntry.mk.injEq] at he ⊢
      simp [he]

lemma options_loop_countP (l : List OptEntry) (tk : String) :
    ((options_loop l).2.countP (fun o => o.ticker == tk))
      ≤ l.countP (fun e => e.ticker == tk) := by
  induction l with
  | nil => simp [options_loop]
  | cons e rest IH =>
    simp only [options_loop]
    rw [List.countP_append, List.countP_cons]
    beta_reduce
    have hmatch :
        ((match (step_option e.data).2 with
          | some sq => ([⟨e.ticker, sq.1, sq.2⟩] : List Order)
          | none => []).countP (fun o : Order => o.ticker == tk))
          ≤ (if e.ticker == tk then 1 else 0) := by
      cases hso : (step_option e.data).2 with
      | none => simp
      | some sq => simp [List.countP_cons]
    omega

lemma chain'_scanl (R : ℚ → ℚ → Prop) (f : ℚ → ℚ → ℚ) (hf : ∀ b a, R b (f b a)) :
    ∀ (l : List ℚ) (t : ℚ),
      List.Chain' R (List.scanl f t l) ∧ (List.scanl f t l).head? = some t := by
  intro l
  induction l with
  | nil =>
    intro t
    exact ⟨List.chain'_singleton t, rfl⟩
  | cons a l IH =>
    intro t
    rw [List.scanl_cons]
    simp only [List.singleton_append]
    obtain ⟨hc, hh⟩ := IH (f t a)
    refine ⟨List.chain'_cons'.mpr ⟨?_, hc⟩, by simp⟩
    intro y hy
    rw [hh, Option.mem_def, Option.some_inj] at hy
    rw [← hy] at *
    exact hf t a

lemma tickStep_init_preserved (P : MathPrims) (st : BotState) (inp : TickInput)
    (hs : st.sigma < 0) (hopt : ∀ e ∈ st.stats.options, e.data = initOptData)
    (hv : ∀ t, inp.vol = some t → t ≤ 0) :
    (tickStep P st inp).1.sigma = st.sigma ∧
    (tickStep P st inp).1.stats.options = st.stats.options ∧
    (∀ o ∈ (tickStep P st inp).2, o.ticker = RTM) := by
  have hsig : (match inp.vol with
      | some temp => update_sigma st.sigma temp
      | none => st.sigma) = st.sigma := by
    cases hvv : inp.vol with
    | none => rfl
    | some t =>
      have ht := hv t hvv
      show update_sigma st.sigma t = st.sigma
      rw [update_sigma, if_neg (not_lt.mpr ht)]
  have hloop := options_loop_init st.stats.options hopt
  simp only [tickStep, hsig, perform_options_trades]
  rw [if_pos hs]
  simp only [hloop]
  refine ⟨trivial, trivial, ?_⟩
  simp only [List.nil_append]
  exact manage_risk_ticker _

/-- Claim C9: for all `S` and `K` (and any `r`, `sigma`),
`black_scholes_price` with `T = 0` and `is_call = true` returns the call
intrinsic value `max (S - K) 0`; the same holds with `sigma = 0` for any
`T`. -/
theorem call_intrinsic_degeneracy (P : MathPrims) (S K r sigma T : ℚ) :
    black_scholes_price P S K r sigma 0 true = max (S - K) 0 ∧
    black_scholes_price P S K r 0 T true = max (S - K) 0 := by
  constructor
  · rw [black_scholes_price, if_pos (Or.inl le_rfl)]
  · rw [black_scholes_price, if_pos (Or.inr le_rfl)]

/-- Claim C2 (code bug): in the degenerate branch (`T ≤ 0` or
`sigma ≤ 0`) the source returns `max(S - K, 0)` even for a put
(`is_call = false`), not the put intrinsic value `max(K - S, 0)`.
At `S = 2, K = 1, T = 0` the code yields `1` while the put intrinsic
value is `max (1 - 2) 0 = 0`. -/
theorem put_degenerate_returns_call_intrinsic (P : MathPrims) (r sigma : ℚ) :
    black_scholes_price P 2 1 r sigma 0 false = 1 ∧ max ((1 : ℚ) - 2) 0 = 0 := by
  constructor
  · rw [black_scholes_price, if_pos (Or.inl le_rfl)]
    norm_num
  · norm_num

/-- Claim C4: at every per-tick target refresh, a `Flat` (0) entry gets
its target replaced by the new fair value, a `Long` (1) entry ratchets
it with `max`, a `Short` (2) entry with `min`; consequently over any
sequence of refreshed fair values the target sequence is non-decreasing
while `Long` and non-increasing while `Short`.  The last conjunct ties
the ratchet to the driver-loop refresh `refresh_entry`. -/
theorem target_ratchet_monotone (bs t : ℚ) (fvs : List ℚ) (P : MathPrims)
    (sigma S T price : ℚ) (e : OptEntry) :
    refresh_target 0 bs t = bs ∧
    refresh_target 1 bs t = max bs t ∧
    refresh_target 2 bs t = min bs t ∧
    List.Chain' (· ≤ ·) (List.scanl (fun cur fv => refresh_target 1 fv cur) t fvs) ∧
    List.Chain' (fun a b => b ≤ a) (List.scanl (fun cur fv => refresh_target 2 fv cur) t fvs) ∧
    (refresh_entry P sigma S T price e).data.target =
      refresh_target e.data.position
        (black_scholes_price P S e.strike 0 sigma T e.is_call) e.data.target := by
  refine ⟨rfl, rfl, rfl, ?_, ?_, rfl⟩
  · exact (chain'_scanl (· ≤ ·) (fun cur fv => refresh_target 1 fv cur)
      (fun b a => by norm_num [refresh_target]) fvs t).1
  · exact (chain'_scanl (fun a b => b ≤ a) (fun cur fv => refresh_target 2 fv cur)
      (fun b a => by norm_num [refresh_target]) fvs t).1

/-- Claim C7: one step of the per-instrument trading state machine only
ever keeps the position or moves along `Flat→Long`, `Flat→Short`,
`Long→Flat`, `Short→Flat`; a direct `Long→Short` or `Short→Long` move
never happens. -/
theorem position_transitions_through_flat (d : OptData) :
    (((step_option d).1.position = d.position) ∨
      (d.position = 0 ∧ ((step_option d).1.position = 1 ∨ (step_option d).1.position = 2)) ∨
      (d.position = 1 ∧ (step_option d).1.position = 0) ∨
      (d.position = 2 ∧ (step_option d).1.position = 0)) ∧
    ¬(d.position = 1 ∧ (step_option d).1.position = 2) ∧
    ¬(d.position = 2 ∧ (step_option d).1.position = 1) := by
  rw [step_option]
  split_ifs <;> simp_all <;> omega

/-- Claim C5: from a flat position, if the mispricing gap reaches `0.04`
exactly one entry happens, by the sign of the gap: a BUY of
`OPTIONS_QTY_PER_TRADE` contracts and position `Long` (1) when the
market is below target, a SELL and position `Short` (2) when at or
above it; below the gap nothing happens. -/
theorem flat_entry_transition (d : OptData) (h0 : d.position = 0) :
    (0.04 ≤ |d.market - d.target| →
      (d.market < d.target →
        step_option d = (⟨1, d.target, d.market, d.delta⟩,
          some (Side.buy, OPTIONS_QTY_PER_TRADE))) ∧
      (d.target ≤ d.market →
        step_option d = (⟨2, d.target, d.market, d.delta⟩,
          some (Side.sell, OPTIONS_QTY_PER_TRADE)))) ∧
    (|d.market - d.target| < 0.04 → step_option d = (d, none)) := by
  refine ⟨fun hgap => ⟨fun hlt => ?_, fun hge => ?_⟩, fun hsmall => ?_⟩
  · simp only [step_option]
    rw [if_pos h0, if_pos hgap, if_pos hlt]
  · simp only [step_option]
    rw [if_pos h0, if_pos hgap, if_neg (not_lt.mpr hge)]
  · simp only [step_option]
    rw [if_pos h0, if_neg (not_le.mpr hsmall)]

/-- Witness for C5: concrete flat entries that enter long, enter short,
and stay put. -/
theorem flat_entry_transition_witness :
    step_option ⟨0, 2, 1, 0⟩ = (⟨1, 2, 1, 0⟩, some (Side.buy, OPTIONS_QTY_PER_TRADE)) ∧
    step_option ⟨0, 0, 1, 0⟩ = (⟨2, 0, 1, 0⟩, some (Side.sell, OPTIONS_QTY_PER_TRADE)) ∧
    step_option ⟨0, 1, 1.01, 0⟩ = (⟨0, 1, 1.01, 0⟩, none) :=
  ⟨((flat_entry_transition ⟨0, 2, 1, 0⟩ rfl).1 (by norm_num)).1 (by norm_num),
   ((flat_entry_transition ⟨0, 0, 1, 0⟩ rfl).1 (by norm_num)).2 (by norm_num),
   (flat_entry_transition ⟨0, 1, 1.01, 0⟩ rfl).2 (by rw [abs_lt]; constructor <;> norm_num)⟩

/-- Claim C6: a long position (1) is closed to flat with a single SELL
of `OPTIONS_QTY_PER_TRADE` exactly when the market has reached the
target or is within `0.01` of it; a short position (2) is closed with a
single BUY exactly when the market is at or below the target or within
`0.01`; otherwise nothing happens, and `perform_options_trades` submits
at most one order per instrument per tick (the order count per ticker
is bounded by the entry count for that ticker). -/
theorem exit_transitions_and_single_order (d : OptData) (stats : Stats) (tk : String) :
    (d.position = 1 →
      (step_option d = (⟨0, d.target, d.market, d.delta⟩,
          some (Side.sell, OPTIONS_QTY_PER_TRADE)) ↔
        (d.target ≤ d.market ∨ |d.market - d.target| ≤ 0.01)) ∧
      (¬(d.target ≤ d.market ∨ |d.market - d.target| ≤ 0.01) →
        step_option d = (d, none))) ∧
    (d.position = 2 →
      (step_option d = (⟨0, d.target, d.market, d.delta⟩,
          some (Side.buy, OPTIONS_QTY_PER_TRADE)) ↔
        (d.market ≤ d.target ∨ |d.market - d.target| ≤ 0.01)) ∧
      (¬(d.market ≤ d.target ∨ |d.market - d.target| ≤ 0.01) →
        step_option d = (d, none))) ∧
    ((perform_options_trades stats).2.countP (fun o : Order => o.ticker == tk)
      ≤ stats.options.countP (fun e : OptEntry => e.ticker == tk)) := by
  refine ⟨fun h1 => ⟨⟨fun heq => ?_, fun hcond => ?_⟩, fun hnc => ?_⟩,
    fun h2 => ⟨⟨fun heq => ?_, fun hcond => ?_⟩, fun hnc => ?_⟩, ?_⟩
  · by_contra hnc
    have : step_option d = (d, none) := by
      simp only [step_option]
      rw [if_neg (by omega), if_pos h1, if_neg hnc]
    rw [this] at heq
    simp at heq
  · simp only [step_option]
    rw [if_neg (by omega), if_pos h1, if_pos hcond]
  · simp only [step_option]
    rw [if_neg (by omega), if_pos h1, if_neg hnc]
  · by_contra hnc
    have : step_option d = (d, none) := by
      simp only [step_option]
      rw [if_neg (by omega), if_neg (by omega), if_pos h2, if_neg hnc]
    rw [this] at heq
    simp at heq
  · simp only [step_option]
    rw [if_neg (by omega), if_neg (by omega), if_pos h2, if_pos hcond]
  · simp only [step_option]
    rw [if_neg (by omega), if_neg (by omega), if_pos h2, if_neg hnc]
  · simp only [perform_options_trades]
    exact options_loop_countP stats.options tk

/-- Witness for C6: a long closed at the target, a short closed near the
target, a long left open, and a concrete count bound. -/
theorem exit_transitions_and_single_order_witness :
    step_option ⟨1, 1, 2, 0⟩ = (⟨0, 1, 2, 0⟩, some (Side.sell, OPTIONS_QTY_PER_TRADE)) ∧
    step_option ⟨2, 2, 1.995, 0⟩ = (⟨0, 2, 1.995, 0⟩, some (Side.buy, OPTIONS_QTY_PER_TRADE)) ∧
    step_option ⟨1, 2, 1, 0⟩ = (⟨1, 2, 1, 0⟩, none) ∧
    ((perform_options_trades stats_w0).2.countP (fun o : Order => o.ticker == "RTM48C")
      ≤ stats_w0.options.countP (fun e : OptEntry => e.ticker == "RTM48C")) :=
  ⟨((exit_transitions_and_single_order ⟨1, 1, 2, 0⟩ stats_w0 "RTM48C").1 rfl).1.mpr
      (by norm_num),
   ((exit_transitions_and_single_order ⟨2, 2, 1.995, 0⟩ stats_w0 "RTM48C").2.1 rfl).1.mpr
      (by norm_num),
   ((exit_transitions_and_single_order ⟨1, 2, 1, 0⟩ stats_w0 "RTM48C").1 rfl).2
      (by norm_num),
   (exit_transitions_and_single_order ⟨1, 1, 2, 0⟩ stats_w0 "RTM48C").2.2⟩

/-- Claim C8: the realized-volatility parse is total — every failure
path (bad index or failed float conversion, i.e. `parse_vol_token =
none`) yields the sentinel `-1`, a successful parse yields the token
value over 100 — and the checkpoint update changes `sigma` only for a
strictly positive parsed value, leaving it unchanged (possibly still at
its own sentinel) otherwise. -/
theorem volatility_parse_and_sigma_update (f : String → Option ℚ)
    (news_body : List String) (sigma : ℚ) :
    (parse_vol_token f news_body = none → get_realized_volatility f news_body = -1) ∧
    (∀ x, parse_vol_token f news_body = some x →
      get_realized_volatility f news_body = x / 100) ∧
    (get_realized_volatility f news_body ≤ 0 →
      update_sigma sigma (get_realized_volatility f news_body) = sigma) ∧
    (0 < get_realized_volatility f news_body →
      update_sigma sigma (get_realized_volatility f news_body) =
        get_realized_volatility f news_body) := by
  have hupd1 : ∀ q : ℚ, q ≤ 0 → update_sigma sigma q = sigma := fun q hq => by
    rw [update_sigma, if_neg (not_lt.mpr hq)]
  have hupd2 : ∀ q : ℚ, 0 < q → update_sigma sigma q = q := fun q hq => by
    rw [update_sigma, if_pos hq]
  refine ⟨?_, ?_, hupd1 _, hupd2 _⟩
  · intro hn
    simp only [parse_vol_token] at hn
    simp only [get_realized_volatility]
    split_ifs at hn ⊢ with hlen
    · cases hg : news_body.getLast? with
      | none => simp [hg]
      | some tok =>
        rw [hg, Option.some_bind] at hn
        simp [hg, hn]
    · cases hg : news_body.get? 29 with
      | none => simp [hg]
      | some tok =>
        rw [hg, Option.some_bind] at hn
        simp [hg, hn]
  · intro x hx
    simp only [parse_vol_token] at hx
    simp only [get_realized_volatility]
    split_ifs at hx ⊢ with hlen
    · cases hg : news_body.getLast? with
      | none => rw [hg] at hx; cases hx
      | some tok =>
        rw [hg, Option.some_bind] at hx
        simp [hg, hx]
    · cases hg : news_body.get? 29 with
      | none => rw [hg] at hx; cases hx
      | some tok =>
        rw [hg, Option.some_bind] at hx
        simp [hg, hx]

/-- Witness for C8: a failed parse on an empty body yields `-1` and
leaves sigma at `5`; a successful parse of `20` on a 30-token body
yields `1/5` and overwrites sigma. -/
theorem volatility_parse_and_sigma_update_witness :
    get_realized_volatility (fun _ => none) [] = -1 ∧
    update_sigma 5 (get_realized_volatility (fun _ => none) []) = 5 ∧
    get_realized_volatility (fun _ => some 20) (List.replicate 30 "x") = 1 / 5 ∧
    update_sigma 5 (get_realized_volatility (fun _ => some 20) (List.replicate 30 "x"))
      = 1 / 5 := by
  have h1 := (volatility_parse_and_sigma_update (fun _ => none) [] 5).1 (by rfl)
  have h2 := (volatility_parse_and_sigma_update (fun _ => none) [] 5).2.2.1
    (by rw [h1]; norm_num)
  have h3 := (volatility_parse_and_sigma_update (fun _ => some 20)
    (List.replicate 30 "x") 5).2.1 20 (by rfl)
  have h3' : get_realized_volatility (fun _ => some 20) (List.replicate 30 "x") = 1 / 5 := by
    rw [h3]; norm_num
  have h4 := (volatility_parse_and_sigma_update (fun _ => some 20)
    (List.replicate 30 "x") 5).2.2.2 (by rw [h3']; norm_num)
  exact ⟨h1, h2, h3', by rw [h4, h3']⟩

lemma runTicks_init_invariant (P : MathPrims) :
    ∀ (inputs : List TickInput) (st : BotState),
      st.sigma < 0 →
      (∀ e ∈ st.stats.options, e.data = initOptData) →
      (∀ inp ∈ inputs, ∀ t, inp.vol = some t → t ≤ 0) →
      (runTicks P st inputs).1.sigma < 0 ∧
      (∀ e ∈ (runTicks P st inputs).1.stats.options, e.data = initOptData) ∧
      (∀ o ∈ (runTicks P st inputs).2, o.ticker = RTM) := by
  intro inputs
  induction inputs with
  | nil =>
    intro st hs hopt hvol
    exact ⟨hs, hopt, by simp [runTicks]⟩
  | cons inp rest IH =>
    intro st hs hopt hvol
    obtain ⟨e1, e2, e3⟩ := tickStep_init_preserved P st inp hs hopt
      (hvol inp (List.mem_cons_self inp rest))
    have hs1 : (tickStep P st inp).1.sigma < 0 := by rw [e1]; exact hs
    have hopt1 : ∀ e ∈ (tickStep P st inp).1.stats.options, e.data = initOptData := by
      rw [e2]; exact hopt
    have hvol1 : ∀ i ∈ rest, ∀ t, i.vol = some t → t ≤ 0 :=
      fun i hi => hvol i (List.mem_cons_of_mem inp hi)
    obtain ⟨g1, g2, g3⟩ := IH (tickStep P st inp).1 hs1 hopt1 hvol1
    simp only [runTicks]
    refine ⟨g1, g2, ?_⟩
    intro o ho
    rcases List.mem_append.mp ho with hoa | hob
    · exact e3 o hoa
    · exact g3 o hob

/-- Claim C10: starting from any state whose sigma is still negative
(the uninitialized sentinel) and whose option entries are all at their
initial data, any run of the driver loop in which every checkpoint
parse yields a non-positive value keeps sigma negative, keeps every
option entry at its initial data (market and target still `0`, hence
gap `0 < 0.04`, position still flat), and submits no option order —
every submitted order is for the underlying `"RTM"`. -/
theorem no_option_orders_before_first_sigma (P : MathPrims) (st : BotState)
    (inputs : List TickInput)
    (hs : st.sigma < 0)
    (hopt : ∀ e ∈ st.stats.options, e.data = initOptData)
    (hvol : ∀ inp ∈ inputs, ∀ t, inp.vol = some t → t ≤ 0) :
    (runTicks P st inputs).1.sigma < 0 ∧
    (∀ e ∈ (runTicks P st inputs).1.stats.options, e.data = initOptData) ∧
    (∀ e ∈ (runTicks P st inputs).1.stats.options,
      |e.data.market - e.data.target| < 0.04 ∧ e.data.position = 0) ∧
    (∀ o ∈ (runTicks P st inputs).2, o.ticker = RTM) := by
  obtain ⟨g1, g2, g3⟩ := runTicks_init_invariant P inputs st hs hopt hvol
  refine ⟨g1, g2, fun e he => ?_, g3⟩
  rw [g2 e he]
  norm_num [initOptData]

/-- Witness for C10: one concrete tick from the initial state with a
failed checkpoint parse keeps every option flat and emits only
underlying orders. -/
theorem no_option_orders_before_first_sigma_witness :
    st0.sigma < 0 ∧
    ((runTicks P0 st0 [inp0]).1.sigma < 0 ∧
     (∀ e ∈ (runTicks P0 st0 [inp0]).1.stats.options, e.data = initOptData) ∧
     (∀ e ∈ (runTicks P0 st0 [inp0]).1.stats.options,
       |e.data.market - e.data.target| < 0.04 ∧ e.data.position = 0) ∧
     (∀ o ∈ (runTicks P0 st0 [inp0]).2, o.ticker = RTM)) := by
  have hs : st0.sigma < 0 := by norm_num [st0]
  have hopt : ∀ e ∈ st0.stats.options, e.data = initOptData := by
    intro e he
    fin_cases he <;> rfl
  have hvol : ∀ inp ∈ [inp0], ∀ t, inp.vol = some t → t ≤ 0 := by
    intro inp hm t ht
    rw [List.mem_singleton] at hm
    subst hm
    have ht' : some (-1 : ℚ) = some t := ht
    have : (-1 : ℚ) = t := by injection ht'
    rw [← this]
    norm_num
  exact ⟨hs, no_option_orders_before_first_sigma P0 st0 [inp0] hs hopt hvol⟩

/-- Claim C1 (amended): the hedge branch of `manage_risk` fires exactly
when `|netDelta| > NET_DELTA_RISK_LIMIT`.  When it fires, the orders
are the `chunk_orders` splitting of the quantity
`|int(netDelta)| * 0.7` — truncation happens before the
multiplication, so the total is `0.7 × |trunc(netDelta)|`, in general a
non-integral quantity and not `floor(0.7 × |netDelta|)` — as SELLs when
`netDelta > 0` and BUYs otherwise, split into orders of exactly
`SHARES_ORDER_LIMIT` shares followed by one final remainder order of
positive size at most `SHARES_ORDER_LIMIT`.  When it does not fire, the
only order `manage_risk` can submit is a single unwind order of size
`|position|` in the underlying. -/
theorem hedge_trigger_and_chunking (stats : Stats) :
    (NET_DELTA_RISK_LIMIT < |netDelta stats| →
      manage_risk stats =
        (chunk_orders ((|pytrunc (netDelta stats)| : ℤ) * (0.7 : ℚ))).map
          (fun q => ⟨RTM, if 0 < netDelta stats then Side.sell else Side.buy, q⟩) ∧
      ∃ l q_rem,
        chunk_orders ((|pytrunc (netDelta stats)| : ℤ) * (0.7 : ℚ)) = l ++ [q_rem] ∧
        (∀ x ∈ l, x = SHARES_ORDER_LIMIT) ∧
        0 < q_rem ∧ q_rem ≤ SHARES_ORDER_LIMIT ∧
        (l ++ [q_rem]).sum = (|pytrunc (netDelta stats)| : ℤ) * (0.7 : ℚ)) ∧
    (|netDelta stats| ≤ NET_DELTA_RISK_LIMIT →
      manage_risk stats = [] ∨
      ∃ sd, manage_risk stats = [⟨RTM, sd, |stats.rtm.position|⟩]) := by
  constructor
  · intro h
    constructor
    · simp only [manage_risk]
      rw [if_pos h]
    · exact chunk_orders_split _ (hedge_shares_pos _ h)
  · intro h
    simp only [manage_risk]
    rw [if_neg (not_lt.mpr h)]
    by_cases h2 : 0 < stats.rtm.position ∧
        stats.rtm.vwap < stats.rtm.market - MKT_FEE * stats.rtm.position
    · rw [if_pos h2]
      by_cases h3 : |netDelta stats - stats.rtm.position| < NET_DELTA_RISK_LIMIT
      · rw [if_pos h3]
        right
        exact ⟨Side.sell, by rw [abs_of_pos h2.1]⟩
      · rw [if_neg h3]
        left
        rfl
    · rw [if_neg h2]
      by_cases h4 : stats.rtm.position < 0 ∧
          stats.rtm.market + MKT_FEE * |stats.rtm.position| < stats.rtm.vwap
      · rw [if_pos h4]
        by_cases h5 : |netDelta stats - stats.rtm.position| < NET_DELTA_RISK_LIMIT
        · rw [if_pos h5]
          right
          exact ⟨Side.buy, rfl⟩
        · rw [if_neg h5]
          left
          rfl
      · rw [if_neg h4]
        left
        rfl

/-- Witness for C1: with two long calls of delta `0.5` the net delta is
`9000 > 5000` and the hedge is a single SELL of `6300 = 0.7 × 9000`
shares; with everything flat the net delta is `0` and the hedge branch
does not fire. -/
theorem hedge_trigger_and_chunking_witness :
    NET_DELTA_RISK_LIMIT < |netDelta stats_w1| ∧
    manage_risk stats_w1 = [⟨RTM, Side.sell, 6300⟩] ∧
    (manage_risk stats_w0 = [] ∨
      ∃ sd, manage_risk stats_w0 = [⟨RTM, sd, |stats_w0.rtm.position|⟩]) := by
  have hnd : netDelta stats_w1 = 9000 := by
    simp [netDelta, stats_w1, OPTIONS_QTY_PER_TRADE, SHARES_PER_CONTRACT]
    norm_num
  have hgt : NET_DELTA_RISK_LIMIT < |netDelta stats_w1| := by
    rw [hnd]
    norm_num [NET_DELTA_RISK_LIMIT]
  have hnd0 : netDelta stats_w0 = 0 := by
    simp [netDelta, stats_w0, optUniverse, initOptData]
  have hle : |netDelta stats_w0| ≤ NET_DELTA_RISK_LIMIT := by
    rw [hnd0]
    norm_num [NET_DELTA_RISK_LIMIT]
  have happ := (hedge_trigger_and_chunking stats_w1).1 hgt
  have happ2 := (hedge_trigger_and_chunking stats_w0).2 hle
  refine ⟨hgt, ?_, happ2⟩
  rw [happ.1]
  have harg : ((|pytrunc (netDelta stats_w1)| : ℤ) : ℚ) * (0.7 : ℚ) = 6300 := by
    rw [hnd]
    have htr : pytrunc 9000 = 9000 := by
      rw [pytrunc, if_pos (by norm_num)]
      rw [show ((9000 : ℚ)) = (((9000 : ℤ)) : ℚ) by norm_num, Int.floor_intCast]
    rw [htr]
    norm_num
  rw [harg]
  have hch : chunk_orders 6300 = [6300] := by
    rw [chunk_orders_of_le 6300 (by norm_num [SHARES_ORDER_LIMIT]), if_pos (by norm_num)]
  rw [hch, hnd]
  norm_num

/-- Counterexample for C1 as stated: at net delta `5001` the code
submits a single SELL of `0.7 × 5001 = 3500.7` shares, whereas the
claim's `floor(0.7 × |netDelta|) = 3500`; the two quantities differ. -/
theorem hedge_qty_not_floor_counterexample :
    netDelta stats_c1 = 5001 ∧
    manage_risk stats_c1 = [⟨RTM, Side.sell, 35007 / 10⟩] ∧
    (35007 / 10 : ℚ) ≠ ((⌊(0.7 : ℚ) * |netDelta stats_c1|⌋ : ℤ) : ℚ) := by
  have hnd : netDelta stats_c1 = 5001 := by
    simp [netDelta, stats_c1, optUniverse, initOptData]
  refine ⟨hnd, ?_, ?_⟩
  · simp only [manage_risk]
    rw [if_pos (by rw [hnd]; norm_num [NET_DELTA_RISK_LIMIT])]
    have harg : ((|pytrunc (netDelta stats_c1)| : ℤ) : ℚ) * (0.7 : ℚ) = 35007 / 10 := by
      rw [hnd]
      have htr : pytrunc 5001 = 5001 := by
        rw [pytrunc, if_pos (by norm_num)]
        rw [show ((5001 : ℚ)) = (((5001 : ℤ)) : ℚ) by norm_num, Int.floor_intCast]
      rw [htr]
      norm_num
    rw [harg]
    have hch : chunk_orders (35007 / 10) = [35007 / 10] := by
      rw [chunk_orders_of_le _ (by norm_num [SHARES_ORDER_LIMIT]), if_pos (by norm_num)]
    rw [hch, hnd]
    norm_num
  · rw [hnd]
    have hfl : ⌊(0.7 : ℚ) * |(5001 : ℚ)|⌋ = 3500 := by
      rw [abs_of_pos (by norm_num)]
      rw [Int.floor_eq_iff]
      constructor <;> push_cast <;> norm_num
    rw [hfl]
    norm_num

/-- Claim C3 (amended): when `|netDelta| ≤ NET_DELTA_RISK_LIMIT`,
`manage_risk` submits the single SELL flattening a positive underlying
position `p` iff the per-share gain clears the fee scaled by the
position size — `vwap < market - MKT_FEE * p` (not the plain per-share
fee the claim states) — and `|netDelta - p| < NET_DELTA_RISK_LIMIT`
(strictly); symmetrically for a negative position with
`market + MKT_FEE * |p| < vwap`; in all other cases it submits
nothing. -/
theorem unwind_profit_gate (stats : Stats)
    (h : |netDelta stats| ≤ NET_DELTA_RISK_LIMIT) :
    (manage_risk stats = [⟨RTM, Side.sell, stats.rtm.position⟩] ↔
      (0 < stats.rtm.position ∧
        stats.rtm.vwap < stats.rtm.market - MKT_FEE * stats.rtm.position ∧
        |netDelta stats - stats.rtm.position| < NET_DELTA_RISK_LIMIT)) ∧
    (manage_risk stats = [⟨RTM, Side.buy, |stats.rtm.position|⟩] ↔
      (stats.rtm.position < 0 ∧
        stats.rtm.market + MKT_FEE * |stats.rtm.position| < stats.rtm.vwap ∧
        |netDelta stats - stats.rtm.position| < NET_DELTA_RISK_LIMIT)) ∧
    ((¬(0 < stats.rtm.position ∧
        stats.rtm.vwap < stats.rtm.market - MKT_FEE * stats.rtm.position ∧
        |netDelta stats - stats.rtm.position| < NET_DELTA_RISK_LIMIT) ∧
      ¬(stats.rtm.position < 0 ∧
        stats.rtm.market + MKT_FEE * |stats.rtm.position| < stats.rtm.vwap ∧
        |netDelta stats - stats.rtm.position| < NET_DELTA_RISK_LIMIT)) →
      manage_risk stats = []) := by
  simp only [manage_risk]
  rw [if_neg (not_lt.mpr h)]
  by_cases h2 : 0 < stats.rtm.position ∧
      stats.rtm.vwap < stats.rtm.market - MKT_FEE * stats.rtm.position
  · rw [if_pos h2]
    by_cases h3 : |netDelta stats - stats.rtm.position| < NET_DELTA_RISK_LIMIT
    · rw [if_pos h3]
      refine ⟨⟨fun _ => ⟨h2.1, h2.2, h3⟩, fun _ => rfl⟩,
        ⟨fun heq => ?_, fun hc => absurd hc.1 (not_lt.mpr h2.1.le)⟩,
        fun hc => absurd ⟨h2.1, h2.2, h3⟩ hc.1⟩
      simp only [List.cons.injEq, Order.mk.injEq] at heq
      exact absurd heq.1.2.1 (by simp)
    · rw [if_neg h3]
      refine ⟨⟨fun heq => ?_, fun hc => absurd hc.2.2 h3⟩,
        ⟨fun heq => ?_, fun hc => absurd hc.1 (not_lt.mpr h2.1.le)⟩,
        fun _ => rfl⟩
      · simp at heq
      · simp at heq
  · rw [if_neg h2]
    by_cases h4 : stats.rtm.position < 0 ∧
        stats.rtm.market + MKT_FEE * |stats.rtm.position| < stats.rtm.vwap
    · rw [if_pos h4]
      by_cases h5 : |netDelta stats - stats.rtm.position| < NET_DELTA_RISK_LIMIT
      · rw [if_pos h5]
        refine ⟨⟨fun heq => ?_, fun hc => absurd ⟨hc.1, hc.2.1⟩ h2⟩,
          ⟨fun _ => ⟨h4.1, h4.2, h5⟩, fun _ => rfl⟩,
          fun hc => absurd ⟨h4.1, h4.2, h5⟩ hc.2⟩
        simp only [List.cons.injEq, Order.mk.injEq] at heq
        exact absurd heq.1.2.1 (by simp)
      · rw [if_neg h5]
        refine ⟨⟨fun heq => ?_, fun hc => absurd ⟨hc.1, hc.2.1⟩ h2⟩,
          ⟨fun heq => ?_, fun hc => absurd hc.2.2 h5⟩,
          fun _ => rfl⟩
        · simp at heq
        · simp at heq
    · rw [if_neg h4]
      refine ⟨⟨fun heq => ?_, fun hc => absurd ⟨hc.1, hc.2.1⟩ h2⟩,
        ⟨fun heq => ?_, fun hc => absurd ⟨hc.1, hc.2.1⟩ h4⟩,
        fun _ => rfl⟩
      · simp at heq
      · simp at heq

/-- Witness for C3: a long hedge of one share bought at vwap `10` with
the market at `10.05` is profitably unwound by a single SELL. -/
theorem unwind_profit_gate_witness :
    |netDelta stats_w3| ≤ NET_DELTA_RISK_LIMIT ∧
    manage_risk stats_w3 = [⟨RTM, Side.sell, stats_w3.rtm.position⟩] := by
  have hnd : netDelta stats_w3 = 1 := by
    simp [netDelta, stats_w3, optUniverse, initOptData]
  have hle : |netDelta stats_w3| ≤ NET_DELTA_RISK_LIMIT := by
    rw [hnd]
    norm_num [NET_DELTA_RISK_LIMIT]
  refine ⟨hle, (unwind_profit_gate stats_w3 hle).1.mpr ⟨?_, ?_, ?_⟩⟩
  · norm_num [stats_w3]
  · norm_num [stats_w3, MKT_FEE]
  · rw [hnd]
    norm_num [stats_w3, NET_DELTA_RISK_LIMIT]

/-- Counterexample for C3 as stated: with an underlying position of `2`,
market `10.03` and vwap `10`, the per-share gain `0.03` exceeds the
per-share fee `0.02` and the delta-after-unwind check passes, so the
claim predicts a flattening SELL; the code compares the gain against
`MKT_FEE * position = 0.04` and submits nothing. -/
theorem unwind_per_share_fee_counterexample :
    |netDelta stats_c3| ≤ NET_DELTA_RISK_LIMIT ∧
    stats_c3.rtm.position ≠ 0 ∧
    MKT_FEE < stats_c3.rtm.market - stats_c3.rtm.vwap ∧
    |netDelta stats_c3 - stats_c3.rtm.position| ≤ NET_DELTA_RISK_LIMIT ∧
    manage_risk stats_c3 = [] := by
  have hnd : netDelta stats_c3 = 2 := by
    simp [netDelta, stats_c3, optUniverse, initOptData]
  refine ⟨by rw [hnd]; norm_num [NET_DELTA_RISK_LIMIT],
    by norm_num [stats_c3],
    by norm_num [stats_c3, MKT_FEE],
    by rw [hnd]; norm_num [stats_c3, NET_DELTA_RISK_LIMIT], ?_⟩
  simp only [manage_risk]
  rw [if_neg (by rw [hnd]; norm_num [NET_DELTA_RISK_LIMIT])]
  rw [if_neg (fun hc => by norm_num [stats_c3, MKT_FEE] at hc)]
  rw [if_neg (fun hc => by norm_num [stats_c3] at hc)]
